import Mathlib

/-!
Verification development for the parameter-serialization core of the
LogicAppsUX repository: the value-segment to expression-language renderer
(`parameterValueToString`, `parameterValueToJSONString`), the path-keyed
input serializer (`constructInputValues`, `serializeParameterWithPath`),
and the operation-options serialization
(`getSerializedOperationOptions`, `updateOperationOptions`).

JS values are embedded as an inductive `Json` type; `undefined` is
represented by `Option.none` at positions where the source distinguishes
`undefined` from `null`.  Machine strings are Lean `String`s and all
functions are total and executable.
-/

namespace LogicApps

/-! ## Basic character/string utilities (structural, reduction-friendly) -/

def isWsChar (c : Char) : Bool :=
  c = ' ' || c = '\n' || c = '\t' || c = '\r'

def skipWs (l : List Char) : List Char :=
  l.dropWhile isWsChar

/-- Trim whitespace from both ends of a character list. -/
def trimChars (l : List Char) : List Char :=
  ((l.dropWhile isWsChar).reverse.dropWhile isWsChar).reverse

def splitOnCharAux (sep : Char) : List Char → List Char → List (List Char)
  | [], acc => [acc.reverse]
  | c :: rest, acc =>
    if c = sep then acc.reverse :: splitOnCharAux sep rest []
    else splitOnCharAux sep rest (c :: acc)

/-- Split a character list on a separator character (JS `String.split`:
an empty input yields one empty field). -/
def splitOnChar (sep : Char) (l : List Char) : List (List Char) :=
  splitOnCharAux sep l []

def joinSep (sep : String) : List String → String
  | [] => ""
  | [x] => x
  | x :: xs => x ++ sep ++ joinSep sep xs

def toLowerStr (s : String) : String :=
  String.mk (s.data.map Char.toLower)

/-- Case-insensitive string comparison (the `equals` helper of the
`@microsoft-logic-apps/utils` package). -/
def equalsCI (a b : String) : Bool :=
  toLowerStr a == toLowerStr b

/-! ## JSON value model

`Json` models the plain JSON-compatible values the serializer produces.
JS `undefined` is modelled as `Option.none` wherever the source code
distinguishes it from `null`. -/

inductive Json where
  | null : Json
  | bool (b : Bool) : Json
  | num (n : Int) : Json
  | str (s : String) : Json
  | arr (elems : List Json) : Json
  | obj (fields : List (String × Json)) : Json
deriving Repr

/-! ### JSON text parsing (model of strict `JSON.parse`)

A fuel-indexed recursive-descent parser.  It accepts the JSON fragment
used by the serializer's inputs: null / booleans / integer numbers /
strings with escapes / arrays / objects.  Parsing returns `none` exactly
when `JSON.parse` would throw on such inputs. -/

def hexDigitVal (c : Char) : Option Nat :=
  let n := c.toNat
  if 48 ≤ n && n ≤ 57 then some (n - 48)
  else if 97 ≤ n && n ≤ 102 then some (n - 87)
  else if 65 ≤ n && n ≤ 70 then some (n - 55)
  else none

/-- Strip an expected keyword from the front of the input. -/
def stripChars : List Char → List Char → Option (List Char)
  | [], l => some l
  | k :: ks, c :: cs => if c = k then stripChars ks cs else none
  | _ :: _, [] => none

/-- Parse the body of a JSON string literal (the opening quote already
consumed); returns the decoded characters and the remaining input. -/
def pStringBody : List Char → Option (List Char × List Char)
  | [] => none
  | '"' :: rest => some ([], rest)
  | '\\' :: esc :: rest =>
    match esc with
    | '"' => (pStringBody rest).map (fun p => ('"' :: p.1, p.2))
    | '\\' => (pStringBody rest).map (fun p => ('\\' :: p.1, p.2))
    | '/' => (pStringBody rest).map (fun p => ('/' :: p.1, p.2))
    | 'n' => (pStringBody rest).map (fun p => ('\n' :: p.1, p.2))
    | 't' => (pStringBody rest).map (fun p => ('\t' :: p.1, p.2))
    | 'r' => (pStringBody rest).map (fun p => ('\r' :: p.1, p.2))
    | 'b' => (pStringBody rest).map (fun p => (Char.ofNat 8 :: p.1, p.2))
    | 'f' => (pStringBody rest).map (fun p => (Char.ofNat 12 :: p.1, p.2))
    | 'u' =>
      match rest with
      | h1 :: h2 :: h3 :: h4 :: rest2 =>
        match hexDigitVal h1, hexDigitVal h2, hexDigitVal h3, hexDigitVal h4 with
        | some a, some b, some c, some d =>
          (pStringBody rest2).map
            (fun p => (Char.ofNat (((a * 16 + b) * 16 + c) * 16 + d) :: p.1, p.2))
        | _, _, _, _ => none
      | _ => none
    | _ => none
  | c :: rest => (pStringBody rest).map (fun p => (c :: p.1, p.2))

def spanDigits : List Char → (List Char × List Char)
  | [] => ([], [])
  | c :: rest =>
    if c.isDigit then
      let p := spanDigits rest
      (c :: p.1, p.2)
    else ([], c :: rest)

def digitsToNat (l : List Char) : Nat :=
  l.foldl (fun acc c => acc * 10 + (c.toNat - '0'.toNat)) 0

/-- Parse an integer JSON number (optional minus sign, digit run). -/
def pNumber (l : List Char) : Option (Int × List Char) :=
  match l with
  | '-' :: rest =>
    let p := spanDigits rest
    if p.1.isEmpty then none else some (-(digitsToNat p.1 : Int), p.2)
  | _ =>
    let p := spanDigits l
    if p.1.isEmpty then none else some ((digitsToNat p.1 : Int), p.2)

mutual

def pValue : Nat → List Char → Option (Json × List Char)
  | 0, _ => none
  | fuel + 1, l =>
    let v := skipWs l
    match stripChars "null".data v with
    | some r => some (.null, r)
    | none =>
    match stripChars "true".data v with
    | some r => some (.bool true, r)
    | none =>
    match stripChars "false".data v with
    | some r => some (.bool false, r)
    | none =>
    match v with
    | '"' :: r => (pStringBody r).map (fun p => (.str (String.mk p.1), p.2))
    | '\x7b' :: r =>
      match skipWs r with
      | '\x7d' :: r2 => some (.obj [], r2)
      | r2 => (pMembers fuel r2).map (fun p => (.obj p.1, p.2))
    | '[' :: r =>
      match skipWs r with
      | ']' :: r2 => some (.arr [], r2)
      | r2 => (pElems fuel r2).map (fun p => (.arr p.1, p.2))
    | c :: r =>
      if c = '-' || c.isDigit then
        (pNumber (c :: r)).map (fun p => (.num p.1, p.2))
      else none
    | [] => none

def pMembers : Nat → List Char → Option (List (String × Json) × List Char)
  | 0, _ => none
  | fuel + 1, l =>
    match l with
    | '"' :: r =>
      match pStringBody r with
      | none => none
      | some (key, r2) =>
        match skipWs r2 with
        | ':' :: r3 =>
          match pValue fuel r3 with
          | none => none
          | some (v, r4) =>
            match skipWs r4 with
            | ',' :: r5 =>
              (pMembers fuel (skipWs r5)).map
                (fun p => ((String.mk key, v) :: p.1, p.2))
            | '\x7d' :: r5 => some ([(String.mk key, v)], r5)
            | _ => none
        | _ => none
    | _ => none

def pElems : Nat → List Char → Option (List Json × List Char)
  | 0, _ => none
  | fuel + 1, l =>
    match pValue fuel l with
    | none => none
    | some (v, r) =>
      match skipWs r with
      | ',' :: r2 => (pElems fuel (skipWs r2)).map (fun p => (v :: p.1, p.2))
      | ']' :: r2 => some ([v], r2)
      | _ => none

end

/-- Model of strict `JSON.parse`: parse a whole string, demanding only
trailing whitespace after the value; `none` models a thrown SyntaxError. -/
def parseJsonText (s : String) : Option Json :=
  match pValue (2 * s.data.length + 2) s.data with
  | some (v, rest) => if (skipWs rest).isEmpty then some v else none
  | none => none

/-! ### JSON printing (model of compact `JSON.stringify`) -/

def escapeJsonChars : List Char → String
  | [] => ""
  | c :: rest =>
    (if c = '"' then "\\\""
     else if c = '\\' then "\\\\"
     else if c = '\n' then "\\n"
     else if c = '\t' then "\\t"
     else if c = '\r' then "\\r"
     else String.singleton c) ++ escapeJsonChars rest

def intRepr (n : Int) : String :=
  if n < 0 then "-" ++ Nat.repr n.natAbs else Nat.repr n.natAbs

mutual

def printJson : Json → String
  | .null => "null"
  | .bool true => "true"
  | .bool false => "false"
  | .num n => intRepr n
  | .str s => "\"" ++ escapeJsonChars s.data ++ "\""
  | .arr l => "[" ++ printJsonList l ++ "]"
  | .obj fs => "\x7b" ++ printJsonFields fs ++ "\x7d"

def printJsonList : List Json → String
  | [] => ""
  | [x] => printJson x
  | x :: xs => printJson x ++ "," ++ printJsonList xs

def printJsonFields : List (String × Json) → String
  | [] => ""
  | [f] => "\"" ++ escapeJsonChars f.1.data ++ "\":" ++ printJson f.2
  | f :: fs => "\"" ++ escapeJsonChars f.1.data ++ "\":" ++ printJson f.2 ++ "," ++ printJsonFields fs

end

/-! ## Path model

Modelled from the spec: the `parseEx`, `cleanIndexedValue` and
`isAncestorKey` helpers of the `@microsoft-logic-apps/parsers` package are
imported but not present in the repository sources; spec section 4.1
describes them.  A path string is split on the dot separator; a component
of the form `[n]` is a numeric index segment, the conventional any-index
marker `[*]` is an index segment matching any concrete index, and every
other component is a property-name segment. -/

inductive PathSeg where
  /-- A property-name path segment. -/
  | property (name : String)
  /-- A numeric-index path segment; `none` is the template any-index marker. -/
  | index (i : Option Nat)
deriving DecidableEq, BEq, Repr

/-- Classify one dot-separated component of a path key. -/
def classifyPathComponent (l : List Char) : PathSeg :=
  match l with
  | '[' :: rest =>
    let mid := rest.dropLast
    if rest.getLast? = some ']' then
      if mid = ['*'] then .index none
      else if ¬ mid.isEmpty && mid.all Char.isDigit then .index (some (digitsToNat mid))
      else .property (String.mk l)
    else .property (String.mk l)
  | _ => .property (String.mk l)

/-- Modelled from the spec: `parseEx` of the parsers package — split a
parameter key on `.` and classify each component as a property-name or
index segment (quoted components are not needed by the verified claims). -/
def parseEx (s : String) : List PathSeg :=
  (splitOnChar '.' s.data).map classifyPathComponent

/-- Normalize an index segment to the any-index marker. -/
def normPathSeg : PathSeg → PathSeg
  | .index _ => .index none
  | seg => seg

def printPathSeg : PathSeg → String
  | .property n => n
  | .index none => "[*]"
  | .index (some i) => "[" ++ Nat.repr i ++ "]"

/-- Modelled from the spec: `cleanIndexedValue` of the parsers package —
rewrite every concrete index segment of a key to the template any-index
marker, so that a template key and a concrete instance key compare equal. -/
def cleanIndexedValue (s : String) : String :=
  joinSep "." (((parseEx s).map normPathSeg).map printPathSeg)

/-- Modelled from the spec: `isAncestorKey childKey ancestorKey` of the
parsers package — the ancestor's segments form a non-empty strict prefix
of the child's segments after index normalization. -/
def isAncestorKey (childKey ancestorKey : String) : Bool :=
  let c := (parseEx childKey).map normPathSeg
  let a := (parseEx ancestorKey).map normPathSeg
  ¬ a.isEmpty && a.length < c.length && c.take a.length == a

/-! ## Path-keyed input serializer

Translated from `constructInputValues` / `serializeParameterWithPath`
in `src/libs/designer/src/lib/ui/identitydropdown/index.tsx`
(lines 177–254).  The JS code builds nested containers by in-place
mutation through a cursor `p`; the embedding expresses the same walk as
the recursive functional update `setPath`. -/

/-- `SerializedParameter` of the source: a `ParameterInfo` whose `value`
has already been rendered by `parameterValueToString` (so it is a JS
`string | undefined`, embedded as `Option String`). -/
structure SerializedParameter where
  parameterKey : String
  alternativeKey : Option String := none
  required : Bool := false
  type : String := "string"
  value : Option String := none
deriving Repr

/-- Modelled from the spec: `getJSONValueFromString` of the parameters
helper (not in the sources) — convert a rendered string to the JSON value
a parameter of the given declared type contributes: non-string types are
parsed as JSON with a fallback to the literal string on parse failure
(spec section 4.3's `toJSONValue` with literal-string fallback);
`undefined` input stays `undefined`. -/
def getJSONValueFromString (value : Option String) (type : String) : Option Json :=
  match value with
  | none => none
  | some s =>
    if type = "string" then some (.str s)
    else
      match parseJsonText s with
      | some j => some j
      | none => some (.str s)

/-- Set position `i` of a JS array, filling skipped positions with `null`
(the dense reading of a JS sparse array, which serializes its holes as
`null`). -/
def listSet : List Json → Nat → Json → List Json
  | [], 0, v => [v]
  | [], n + 1, v => Json.null :: listSet [] n v
  | _ :: t, 0, v => v :: t
  | h :: t, n + 1, v => h :: listSet t n v

/-- JS object property assignment: overwrite in place, append when new. -/
def objSet : List (String × Json) → String → Json → List (String × Json)
  | [], k, v => [(k, v)]
  | (k', v') :: t, k, v =>
    if k' = k then (k, v) :: t else (k', v') :: objSet t k v

/-- Read the child of a container at one path segment (`undefined` when
absent or when the container kind does not fit, mirroring JS indexing). -/
def jsonGetSeg (j : Json) : PathSeg → Option Json
  | .property k =>
    match j with
    | .obj fs => (fs.find? (fun f => f.1 == k)).map (·.2)
    | _ => none
  | .index (some i) =>
    match j with
    | .arr l => l.get? i
    | _ => none
  | .index none => none

/-- Write the child of a container at one path segment.  Assignment into
a non-container value is a no-op, as JS property assignment on a
primitive is silently discarded. -/
def jsonSetSeg (j : Json) (seg : PathSeg) (v : Json) : Json :=
  match seg with
  | .property k =>
    match j with
    | .obj fs => .obj (objSet fs k v)
    | _ => j
  | .index (some i) =>
    match j with
    | .arr l => .arr (listSet l i v)
    | _ => j
  | .index none => j

/-- The container walk of `serializeParameterWithPath` (source lines
236–250): follow the relative path segments, creating each missing
intermediate container as an array when the next segment is an index
segment and as an object otherwise, and assign the value (or `null` when
it is `undefined`) at the final segment. -/
def setPath (cur : Json) : List PathSeg → Option Json → Json
  | [], _ => cur
  | [seg], v => jsonSetSeg cur seg (v.getD Json.null)
  | seg :: rest, v =>
    let child :=
      match jsonGetSeg cur seg with
      | some c => c
      | none =>
        match rest with
        | .index _ :: _ => Json.arr []
        | _ => Json.obj []
    jsonSetSeg cur seg (setPath child rest v)

/-- The per-key loop of `serializeParameterWithPath` (source lines
215–251): for each of the parameter's keys (primary, then the optional
`alternativeKey`), either return the value directly when the key equals
the parent key, skip an optional absent value, or walk the relative path
suffix into the accumulated result. -/
def serializeParameterWithPathGo (parentKey : String) (serializedValue : Option Json)
    (required : Bool) : List String → Option Json → Option Json
  | [], result => result
  | valueKey :: restKeys, result =>
    if parentKey = valueKey then serializedValue
    else if !required && serializedValue.isNone then result
    else
      let parentSegments := parseEx parentKey
      let valueSegments := parseEx valueKey
      let pathSegments := valueSegments.drop parentSegments.length
      let base :=
        match result with
        | some r => r
        | none =>
          match pathSegments with
          | .index _ :: _ => Json.arr []
          | _ => Json.obj []
      serializeParameterWithPathGo parentKey serializedValue required restKeys
        (some (setPath base pathSegments serializedValue))

/-- `serializeParameterWithPath` (source lines 203–254). -/
def serializeParameterWithPath (parent : Option Json) (serializedValue : Option Json)
    (parentKey : String) (serializedParameter : SerializedParameter) : Option Json :=
  let valueKeys :=
    match serializedParameter.alternativeKey with
    | some ak => [serializedParameter.parameterKey, ak]
    | none => [serializedParameter.parameterKey]
  serializeParameterWithPathGo parentKey serializedValue serializedParameter.required
    valueKeys parent

/-- `constructInputValues` (source lines 177–201).  Every call site in the
sources passes `encodePathComponents = false`, so the dead
`encodePathValue` branch is elided from the embedding. -/
def constructInputValues (key : String) (inputs : List SerializedParameter) : Option Json :=
  match inputs.find? (fun p => cleanIndexedValue p.parameterKey == cleanIndexedValue key) with
  | some rootParameter =>
    match getJSONValueFromString rootParameter.value rootParameter.type with
    | some result => some result
    | none => if rootParameter.required then some Json.null else none
  | none =>
    (inputs.filter (fun p => isAncestorKey p.parameterKey key)).foldl
      (fun result p =>
        serializeParameterWithPath result (getJSONValueFromString p.value p.type) key p)
      none

/-! ## Value segment model and the expression renderer

Modelled from the spec: `parameterValueToString` and
`parameterValueToJSONString` of the parameters helper module are imported
and unit-tested in the repository sources but the helper implementation
itself is not under the sources; the data model follows spec section 3
and the rendering rules follow spec sections 4.2 and 4.3.  Where the spec
leaves a detail open, the behaviour asserted by the repository's own unit
tests (in `EditorBreadcrumb.stories.tsx`) fixes it. -/

/-- The tag of a value segment: literal text or a token reference. -/
inductive ValueSegmentType where
  | literal
  | token
deriving DecidableEq, BEq, Repr

/-- Token metadata relevant to rendering: the declared value type and the
format hint.  Remaining metadata (key, title, action name, expression
tree with source offsets) does not influence rendering per spec
section 3. -/
structure TokenInfo where
  type : Option String := none
  format : Option String := none
deriving Repr

/-- One segment of a parameter's editable value (spec section 3). -/
structure ValueSegment where
  type : ValueSegmentType
  value : String
  token : Option TokenInfo := none
deriving Repr

/-- The `info` metadata bag of a parameter (spec section 3):
`format` is the casting target format, `inLocation` embeds `info.in`
(the parameter location), `encode` the encoding policy. -/
structure ParamInfoBag where
  format : Option String := none
  inLocation : Option String := none
  encode : Option String := none
deriving Repr

/-- `ParameterInfo` (spec section 3), restricted to the fields the
renderer reads.  `preservedValue` is a JSON value; a string preserved
value is returned verbatim, others JSON-stringified (spec section 4.2). -/
structure ParameterInfo where
  type : String := "string"
  info : ParamInfoBag := {}
  required : Bool := true
  value : List ValueSegment := []
  suppressCasting : Bool := false
  preservedValue : Option Json := none
deriving Repr

/-- Wrap an expression in the string-interpolation syntax. -/
def interpolate (e : String) : String := "@\x7b" ++ e ++ "\x7d"

/-- Render a literal as a template-language string literal. -/
def stringLiteral (s : String) : String := "'" ++ s ++ "'"

/-- Number of `encodeURIComponent` wrappers for an encode policy
(spec section 4.2: `double` gives two, anything else one). -/
def getEncodeValue (encode : Option String) : Nat :=
  if encode = some "double" then 2 else 1

def wrapEncodeOnce (s : String) : String := "encodeURIComponent(" ++ s ++ ")"

def iterateWrap : Nat → String → String
  | 0, s => s
  | n + 1, s => iterateWrap n (wrapEncodeOnce s)

/-- The encoding wrapper for path-location parameters: the innermost
`encodeURIComponent` call receives the comma-joined rendered segment
expressions, each further policy level wraps the previous call. -/
def encodePathExpression (count : Nat) (args : List String) : String :=
  iterateWrap (count - 1) (wrapEncodeOnce (joinSep "," args))

/-- Treat an absent or empty format hint as no format. -/
def normFmt : Option String → Option String
  | some "" => none
  | f => f

/-- The source wire format a token provides: a `file`-typed token carries
binary content, otherwise the token's declared format. -/
def tokenSourceFormat (tok : TokenInfo) : Option String :=
  if tok.type = some "file" then some "binary" else normFmt tok.format

/-- The target wire format a parameter demands: a `file`-typed parameter
wants binary content, otherwise the parameter's declared format. -/
def targetFormat (p : ParameterInfo) : Option String :=
  if p.type = "file" then some "binary" else normFmt p.info.format

/-- Result of the casting table for a single expression. -/
inductive CastResult where
  /-- Emit bare: the cast produced non-string (binary) content. -/
  | bare (e : String)
  /-- Emit interpolated: the cast produced string content. -/
  | interp (e : String)
  /-- No cast applies; fall back to the plain rendering rules. -/
  | plain
deriving Repr

/-- Modelled from the spec: the fixed (source format, target format)
casting table of spec sections 4.2 and 8 — byte sources cast to binary
targets via `base64ToBinary`, datauri sources via `decodeDataUri`
(both bare); binary/file sources cast to byte targets via `base64` and to
datauri targets via the `concat('data:;base64,', base64(...))`
composition (both interpolated); a binary source cast to a plain string
target is the interpolation itself and a byte source uses
`base64ToString`; matching source and target formats need no cast. -/
def castTable (src target : Option String) (e : String) : CastResult :=
  match target with
  | some "binary" =>
    match src with
    | some "byte" => .bare ("base64ToBinary(" ++ e ++ ")")
    | some "datauri" => .bare ("decodeDataUri(" ++ e ++ ")")
    | _ => .plain
  | some "byte" =>
    match src with
    | some "byte" => .plain
    | _ => .interp ("base64(" ++ e ++ ")")
  | some "datauri" =>
    match src with
    | some "datauri" => .plain
    | _ => .interp ("concat('data:;base64,',base64(" ++ e ++ "))")
  | none =>
    match src with
    | some "binary" => .interp e
    | some "byte" => .interp ("base64ToString(" ++ e ++ ")")
    | _ => .plain
  | _ => .plain

/-- Does a token's metadata declare a non-string value type?  A token
with no declared type renders like a string-typed one (pinned by the
`user entered unsupported types` unit test). -/
def tokenTypeNonString (tok : Option TokenInfo) : Bool :=
  match tok with
  | some t =>
    match t.type with
    | some ty => ty != "string"
    | none => false
  | none => false

/-- Plain (cast-free) rendering of a segment sequence, spec section 4.2:
a sole token renders bare, except that a non-string-typed token assigned
to a string-typed parameter is auto-cast by interpolation (unless casting
is suppressed); in a multi-segment value every token of a string-typed
parameter is interpolated, while tokens of non-string parameters stay
bare (pinned by the suppress-casting unit tests). -/
def renderPlainSegments (suppress : Bool) (ptype : String) : List ValueSegment → String
  | [seg] =>
    match seg.type with
    | .literal => seg.value
    | .token =>
      if !suppress && ptype == "string" && tokenTypeNonString seg.token then
        interpolate seg.value
      else "@" ++ seg.value
  | segs =>
    joinSep ""
      (segs.map (fun seg =>
        match seg.type with
        | .literal => seg.value
        | .token =>
          if ptype == "string" then interpolate seg.value else "@" ++ seg.value))

/-- The multi-segment casting composition of spec section 4.2: segments
are combined by an explicit `concat(...)` call (literals as string
literals), then cast to the target format — `base64` for byte,
`concat('data:,', encodeURIComponent(...))` for datauri. -/
def castMultiValue (target : Option String) (segs : List ValueSegment) : String :=
  let args := segs.map (fun seg =>
    match seg.type with
    | .literal => stringLiteral seg.value
    | .token => seg.value)
  let inner := "concat(" ++ joinSep "," args ++ ")"
  if target = some "byte" then interpolate ("base64(" ++ inner ++ ")")
  else interpolate ("concat('data:,',encodeURIComponent(" ++ inner ++ "))")

/-- Non-path, non-JSON rendering with casting (spec section 4.2): a sole
segment consults the casting table (literals are cast as quoted string
literals), a multi-segment value is cast as a whole only for byte and
datauri targets, and suppressed casting falls back to plain rendering. -/
def renderNonPathValue (p : ParameterInfo) (value : List ValueSegment) : String :=
  let target := targetFormat p
  if p.suppressCasting then renderPlainSegments true p.type value
  else
    match value with
    | [seg] =>
      match seg.type with
      | .literal =>
        match castTable none target (stringLiteral seg.value) with
        | .bare e => "@" ++ e
        | .interp e => interpolate e
        | .plain => seg.value
      | .token =>
        let src := match seg.token with
          | some tok => tokenSourceFormat tok
          | none => none
        match castTable src target seg.value with
        | .bare e => "@" ++ e
        | .interp e => interpolate e
        | .plain => renderPlainSegments false p.type [seg]
    | segs =>
      if target = some "byte" || target = some "datauri" then
        castMultiValue target segs
      else renderPlainSegments false p.type segs

/-- Path-location rendering (spec section 4.2): every segment becomes one
argument of the innermost `encodeURIComponent` call — literals as string
literals, tokens as their expression after the casting table (the cast
expression itself, since the whole result is interpolated) — and the
encode policy decides the nesting depth. -/
def renderPathValue (p : ParameterInfo) (value : List ValueSegment) : String :=
  let target := targetFormat p
  let args := value.map (fun seg =>
    match seg.type with
    | .literal => stringLiteral seg.value
    | .token =>
      let src := match seg.token with
        | some tok => tokenSourceFormat tok
        | none => none
      match castTable src target seg.value with
      | .bare e => e
      | .interp e => e
      | .plain => seg.value)
  interpolate (encodePathExpression (getEncodeValue p.info.encode) args)

/-- The raw (cast-free) stringification used by the JSON assembly path:
a sole token renders bare, tokens in a multi-segment value render
interpolated, literals verbatim. -/
def rawRenderSegments : List ValueSegment → String
  | [seg] =>
    match seg.type with
    | .literal => seg.value
    | .token => "@" ++ seg.value
  | segs =>
    joinSep ""
      (segs.map (fun seg =>
        match seg.type with
        | .literal => seg.value
        | .token => interpolate seg.value))

/-- Track whether literal text ends inside an open JSON string literal:
toggle on each unescaped double quote. -/
def quoteParity : Bool → List Char → Bool
  | parity, [] => parity
  | parity, '\\' :: _ :: rest => quoteParity parity rest
  | parity, '"' :: rest => quoteParity (!parity) rest
  | parity, _ :: rest => quoteParity parity rest

/-- Escape embedded double quotes of a token expression so the
surrounding JSON quote characters stay balanced (spec section 4.3). -/
def escapeTokenQuotes : List Char → String
  | [] => ""
  | c :: rest =>
    (if c = '"' then "\\\"" else String.singleton c) ++ escapeTokenQuotes rest

/-- JSON-aware assembly (spec section 4.3): literal runs are emitted
verbatim; a token inside an open JSON string literal is emitted
interpolated; a token outside one is emitted bare and a run of adjacent
such tokens is wrapped in double quotes so it can stand as a JSON string;
embedded double quotes inside token expressions are escaped.
`inQuote` is the literal-text quote parity so far, `afterBareToken`
whether the previous segment was a bare-quoted token whose closing quote
is still pending. -/
def jsonAssemble : Bool → Bool → List ValueSegment → String
  | _, afterBareToken, [] => if afterBareToken then "\"" else ""
  | inQuote, afterBareToken, seg :: rest =>
    match seg.type with
    | .literal =>
      (if afterBareToken then "\"" else "") ++ seg.value ++
        jsonAssemble (quoteParity inQuote seg.value.data) false rest
    | .token =>
      if inQuote then
        interpolate (escapeTokenQuotes seg.value.data) ++ jsonAssemble inQuote false rest
      else
        (if afterBareToken then "" else "\"") ++ "@" ++ escapeTokenQuotes seg.value.data ++
          jsonAssemble inQuote true rest

/-- Does the trimmed text have the outer shape of a JSON object? -/
def jsonObjectShaped (s : String) : Bool :=
  let t := trimChars s.data
  t.head? = some '\x7b' && t.getLast? = some '\x7d'

/-- Does the trimmed text have the outer shape of a JSON array? -/
def jsonArrayShaped (s : String) : Bool :=
  let t := trimChars s.data
  t.head? = some '[' && t.getLast? = some ']'

/-- Modelled from the spec: `parameterValueToJSONString` of the
parameters helper (spec section 4.3) — render the segments raw; when the
result does not even have the outer shape of a JSON object or array,
return it unchanged; otherwise assemble in JSON-aware mode, attempt
strict JSON parsing, and return the compact reserialized form on success
or the raw rendering on failure (the deliberate literal-text fallback).
The function is total: parse failure is a value, never an exception. -/
def parameterValueToJSONString (value : List ValueSegment) : String :=
  let raw := rawRenderSegments value
  if jsonObjectShaped raw || jsonArrayShaped raw then
    match parseJsonText (jsonAssemble false false value) with
    | some j => printJson j
    | none => raw
  else raw

/-- A preserved value is returned as its literal string form when it is a
string and as its JSON-stringified form otherwise (spec section 4.2). -/
def preservedValueString : Json → String
  | .str s => s
  | j => printJson j

/-- Modelled from the spec: `parameterValueToString` of the parameters
helper (spec sections 4.2 and 4.3) — return the preserved value directly
for definition values; otherwise drop empty segments and dispatch: an
empty value renders to the encoded empty string literal for required
path parameters, to the empty string for optional path parameters and
string parameters, and to `undefined` otherwise; non-empty path
parameters use the encoding wrapper; object/array/any types use the JSON
assembly; everything else the casting/plain renderer. -/
def parameterValueToString (p : ParameterInfo) (isDefinitionValue : Bool) : Option String :=
  match p.preservedValue, isDefinitionValue with
  | some pv, true => some (preservedValueString pv)
  | _, _ =>
    let value := p.value.filter (fun seg => seg.value != "")
    let isPath := p.info.inLocation == some "path"
    if value.isEmpty then
      if isPath && isDefinitionValue then
        if p.required then
          some (interpolate (encodePathExpression (getEncodeValue p.info.encode) ["''"]))
        else some ""
      else if p.type == "string" then some "" else none
    else if isPath && isDefinitionValue then
      some (renderPathValue p value)
    else if p.type == "object" || p.type == "array" || p.type == "any" then
      some (parameterValueToJSONString value)
    else
      some (renderNonPathValue p value)

/-! ## Operation options serialization

Translated from `getSerializedOperationOptions` / `updateOperationOptions`
in `src/libs/designer/src/lib/ui/identitydropdown/index.tsx`
(lines 435–498).  The option-name constants live in a constants module
that is not under the sources; their names follow the settings they
serialize.  The `Settings` bag collapses the optional
`{ isSupported, value }` records into booleans exactly as the source's
`!!settings.x?.isSupported` / `!!settings.x?.value` coercions do. -/

/-- One supportable boolean operation setting. -/
structure SettingTogl where
  isSupported : Bool := false
  value : Bool := false
deriving DecidableEq, Repr

/-- The slice of the per-operation settings bag read by
`getSerializedOperationOptions`. -/
structure Settings where
  singleInstance : Bool := false
  sequential : Bool := false
  asynchronous : SettingTogl := {}
  disableAsyncPattern : SettingTogl := {}
  disableAutomaticDecompression : SettingTogl := {}
  suppressWorkflowHeaders : SettingTogl := {}
  suppressWorkflowHeadersOnResponse : SettingTogl := {}
  requestSchemaValidation : SettingTogl := {}
deriving DecidableEq, Repr

/-- `updateOperationOptions` (source lines 482–498), with the in-place
list mutation expressed as a returned list: when the option is supported,
push its name if it is set and absent, and remove it if it is unset and
present (lookup is case-insensitive via `equals`). -/
def updateOperationOptions (operationOption : String) (isOptionSupported isOptionSet : Bool)
    (existingOperationOptions : List String) : List String :=
  if isOptionSupported then
    match existingOperationOptions.findIdx? (fun o => equalsCI o operationOption) with
    | none =>
      if isOptionSet then existingOperationOptions ++ [operationOption]
      else existingOperationOptions
    | some i =>
      if isOptionSet then existingOperationOptions
      else existingOperationOptions.eraseIdx i
  else existingOperationOptions

/-- The eight `updateOperationOptions` calls of source lines 440–477, as
an ordered list of (option name, isSupported, isSet) triples. -/
def operationOptionToggles (s : Settings) : List (String × Bool × Bool) :=
  [ ("SingleInstance", true, s.singleInstance),
    ("Sequential", true, s.sequential),
    ("Asynchronous", s.asynchronous.isSupported, s.asynchronous.value),
    ("DisableAsync", s.disableAsyncPattern.isSupported, s.disableAsyncPattern.value),
    ("DisableAutomaticDecompression", s.disableAutomaticDecompression.isSupported,
      s.disableAutomaticDecompression.value),
    ("SuppressWorkflowHeaders", s.suppressWorkflowHeaders.isSupported,
      s.suppressWorkflowHeaders.value),
    ("SuppressWorkflowHeadersOnResponse", s.suppressWorkflowHeadersOnResponse.isSupported,
      s.suppressWorkflowHeadersOnResponse.value),
    ("EnableSchemaValidation", s.requestSchemaValidation.isSupported,
      s.requestSchemaValidation.value) ]

/-- JS `originalOptions.split(',').map(o => o.trim())`. -/
def splitOptions (s : String) : List String :=
  (splitOnChar ',' s.data).map (fun l => String.mk (trimChars l))

/-- `getSerializedOperationOptions` (source lines 435–480):
start from the original definition's `operationOptions` string (split on
commas, trimmed; empty when null/undefined), apply the eight
`updateOperationOptions` calls in order, and join the surviving names
with a comma and a space — `undefined` (field omitted) when the list is
empty.  `originalOptions` stands for
`rootState.workflow.operations[operationId].operationOptions`. -/
def getSerializedOperationOptions (originalOptions : Option String) (settings : Settings) :
    Option String :=
  let deserializedOptions :=
    match originalOptions with
    | none => []
    | some s => splitOptions s
  let merged := (operationOptionToggles settings).foldl
    (fun acc t => updateOperationOptions t.1 t.2.1 t.2.2 acc) deserializedOptions
  if merged.isEmpty then none else some (joinSep ", " merged)

/-! ## Spec-side definitions

Definitions following the specification's words, to be compared with the
code-side functions above. -/

/-- Spec-side rendering of a multi-segment value: literals verbatim and
every token in interpolated form, concatenated (spec section 8: for
sequences of two or more segments every token appears interpolated). -/
def specInterpolatedRender (segs : List ValueSegment) : String :=
  joinSep ""
    (segs.map (fun seg =>
      match seg.type with
      | .literal => seg.value
      | .token => interpolate seg.value))

/-- Spec-side list of enabled operation option names: the names whose
setting is supported and toggled on, in the fixed serialization order. -/
def specEnabledOptionNames (s : Settings) : List String :=
  ((operationOptionToggles s).filter (fun t => t.2.1 && t.2.2)).map (fun t => t.1)

/-! ## Concrete parameter fixtures used by the claim theorems -/

/-- An integer-typed parameter with suppressed casting whose value mixes
a literal and a string-typed token (the repository's own
`should NOT string interpolate ... for integer parameter` unit test). -/
def mixedIntegerParam : ParameterInfo :=
  { type := "integer", suppressCasting := true,
    value := [ { type := .literal, value := "Test-" },
               { type := .token, value := "triggerBody()", token := some { type := some "string" } } ] }

/-- A string-typed parameter whose value is a single token of declared
token type `t` and expression `e`, with no casting involved. -/
def soleTokenParam (t e : String) : ParameterInfo :=
  { type := "string", info := { format := some "" },
    value := [ { type := .token, value := e, token := some { type := some t } } ] }

/-- A parameter of declared type `ptype` and target format `fmt` whose
value is one token of declared type `tokTy`, format `tokFmt` and
expression `e`. -/
def castParam (ptype : String) (fmt : Option String) (tokTy : String) (tokFmt : Option String)
    (e : String) : ParameterInfo :=
  { type := ptype, info := { format := fmt },
    value := [ { type := .token, value := e, token := some { type := some tokTy, format := tokFmt } } ] }

/-- A path-location string parameter with encode policy `enc` whose value
is the single literal `s`. -/
def pathLiteralParam (enc : String) (s : String) : ParameterInfo :=
  { type := "string", info := { encode := some enc, inLocation := some "path", format := some "" },
    value := [ { type := .literal, value := s } ] }

/-- A path-location parameter with encode policy `double` and target
format binary whose value is a single byte-format token. -/
def pathByteTokenParam (e : String) : ParameterInfo :=
  { type := "string",
    info := { encode := some "double", inLocation := some "path", format := some "binary" },
    value := [ { type := .token, value := e,
                 token := some { type := some "string", format := some "byte" } } ] }

/-- A required path-location parameter with encode policy `double` and an
empty segment value. -/
def emptyRequiredPathParam : ParameterInfo :=
  { type := "string", required := true,
    info := { inLocation := some "path", encode := some "double", format := some "" },
    value := [ { type := .literal, value := "" } ] }

/-- An object-typed parameter holding a single literal `s`. -/
def objectLiteralParam (s : String) : ParameterInfo :=
  { type := "object", info := { format := some "" },
    value := [ { type := .literal, value := s } ] }

/-- The result the root-match branch of `constructInputValues` returns
for a matching parameter. -/
def rootMatchResult (p : SerializedParameter) : Option Json :=
  match getJSONValueFromString p.value p.type with
  | some result => some result
  | none => if p.required then some Json.null else none

/-! ## Helper lemmas -/

theorem filter_nonempty_eq_self (segs : List ValueSegment)
    (h : ∀ seg ∈ segs, seg.value ≠ "") :
    segs.filter (fun seg => seg.value != "") = segs :=
  List.filter_eq_self.mpr (fun seg hseg => by simpa using h seg hseg)

theorem find?_first_match {α} (q : α → Bool) (pre post : List α) (p : α)
    (hpre : ∀ x ∈ pre, q x = false) (hp : q p = true) :
    (pre ++ p :: post).find? q = some p := by
  induction pre with
  | nil => simp [List.find?_cons, hp]
  | cons a l ih =>
    have ha : q a = false := hpre a (by simp)
    simp only [List.cons_append, List.find?_cons, ha]
    exact ih (fun x hx => hpre x (by simp [hx]))

theorem constructInputValues_first_root (key : String)
    (pre post : List SerializedParameter) (p : SerializedParameter)
    (hpre : ∀ q ∈ pre, (cleanIndexedValue q.parameterKey == cleanIndexedValue key) = false)
    (hp : (cleanIndexedValue p.parameterKey == cleanIndexedValue key) = true) :
    constructInputValues key (pre ++ p :: post) = rootMatchResult p := by
  unfold constructInputValues rootMatchResult
  rw [find?_first_match _ pre post p hpre hp]

/-! ## Claim theorems -/

/-- C4: when no input's key matches the root key exactly,
`constructInputValues` walks each descendant's key suffix relative to the
root key, creating a missing intermediate container as an array when the
next path segment is an index segment and as an object when it is a
property segment, assigning the rendered value at the final segment and
processing descendants in input order: for root `inputs.$` with
descendants at `inputs.$.a.[0]` and `inputs.$.a.[1]` the result is the
object mapping `a` to the two values in input order, and a descendant at
`inputs.$.b.c` alone yields nested objects. -/
theorem C4_descendant_walk (v1 v2 v3 : String) :
    constructInputValues "inputs.$"
      [ { parameterKey := "inputs.$.a.[0]", required := true, type := "string", value := some v1 },
        { parameterKey := "inputs.$.a.[1]", required := true, type := "string", value := some v2 } ]
      = some (.obj [("a", .arr [.str v1, .str v2])]) ∧
    constructInputValues "inputs.$"
      [ { parameterKey := "inputs.$.b.c", required := true, type := "string", value := some v3 } ]
      = some (.obj [("b", .obj [("c", .str v3)])]) :=
  ⟨rfl, rfl⟩

/-- C5: if some input's key, after index normalization, equals the root
key exactly, `constructInputValues` returns that (first such) input's
value converted to JSON as the entire result; when the converted value is
`undefined` the result is `null` for a required input and `undefined` for
an optional one. -/
theorem C5_exact_root_match (pre post : List SerializedParameter)
    (p : SerializedParameter) (key : String)
    (hpre : ∀ q ∈ pre, cleanIndexedValue q.parameterKey ≠ cleanIndexedValue key)
    (hp : cleanIndexedValue p.parameterKey = cleanIndexedValue key) :
    constructInputValues key (pre ++ p :: post)
      = match getJSONValueFromString p.value p.type with
        | some j => some j
        | none => if p.required then some Json.null else none :=
  constructInputValues_first_root key pre post p
    (fun q hq => beq_eq_false_iff_ne.mpr (hpre q hq))
    (beq_iff_eq.mpr hp)

theorem C5_witness :
    constructInputValues "inputs.$.items.[0]"
      [ { parameterKey := "other.$.x", required := false, value := some "skipped" },
        { parameterKey := "inputs.$.items.[*]", required := true, value := none },
        { parameterKey := "inputs.$.items.[0]", required := true, value := some "ignored" } ]
      = some Json.null :=
  C5_exact_root_match
    [ { parameterKey := "other.$.x", required := false, value := some "skipped" } ]
    [ { parameterKey := "inputs.$.items.[0]", required := true, value := some "ignored" } ]
    { parameterKey := "inputs.$.items.[*]", required := true, value := none }
    "inputs.$.items.[0]" (by decide) (by decide)

/-- C10: when several inputs' keys normalize (via `cleanIndexedValue`,
which equates the template any-index marker with a concrete index) to the
root key, `constructInputValues` returns the converted value of the first
such input in supplied order, and every later matching input — and indeed
everything after the first match — is ignored. -/
theorem C10_first_match_wins (pre mid post : List SerializedParameter)
    (p q : SerializedParameter) (key : String)
    (hpre : ∀ r ∈ pre, cleanIndexedValue r.parameterKey ≠ cleanIndexedValue key)
    (hp : cleanIndexedValue p.parameterKey = cleanIndexedValue key)
    (_hq : cleanIndexedValue q.parameterKey = cleanIndexedValue key) :
    constructInputValues key (pre ++ p :: (mid ++ q :: post))
      = constructInputValues key (pre ++ [p]) := by
  have h1 := constructInputValues_first_root key pre (mid ++ q :: post) p
    (fun r hr => beq_eq_false_iff_ne.mpr (hpre r hr)) (beq_iff_eq.mpr hp)
  have h2 := constructInputValues_first_root key pre [] p
    (fun r hr => beq_eq_false_iff_ne.mpr (hpre r hr)) (beq_iff_eq.mpr hp)
  rw [h1, ← h2]

theorem C10_witness :
    constructInputValues "inputs.$.items.[0]"
      [ { parameterKey := "other.$.x", required := false, value := some "skipped" },
        { parameterKey := "inputs.$.items.[*]", required := true, value := some "first" },
        { parameterKey := "inputs.$.items.[7]", required := true, value := some "later" } ]
      = constructInputValues "inputs.$.items.[0]"
        [ { parameterKey := "other.$.x", required := false, value := some "skipped" },
          { parameterKey := "inputs.$.items.[*]", required := true, value := some "first" } ] :=
  C10_first_match_wins
    [ { parameterKey := "other.$.x", required := false, value := some "skipped" } ] [] []
    { parameterKey := "inputs.$.items.[*]", required := true, value := some "first" }
    { parameterKey := "inputs.$.items.[7]", required := true, value := some "later" }
    "inputs.$.items.[0]" (by decide) (by decide) (by decide)

/-- C1 fails as stated: for an integer-typed parameter with suppressed
casting, a token in a two-segment value is emitted BARE; the output
`Test-@triggerBody()` contains no interpolation delimiter at all (the
repository's own unit test at `EditorBreadcrumb.stories.tsx` line 655
asserts this output). -/
theorem C1_counterexample :
    parameterValueToString mixedIntegerParam true = some "Test-@triggerBody()" ∧
    (parameterValueToString mixedIntegerParam true).map (fun s => s.data.contains '\x7b')
      = some false :=
  ⟨rfl, rfl⟩

/-- C1 (amended): for a parameter of declared type string that is not
path-located and requires no casting (no target format), every token
segment of a value with two or more non-empty segments is emitted in
interpolated form, literals verbatim — so no bare `@expr` appears for a
non-solitary token. -/
theorem C1_amended (segs : List ValueSegment) (hlen : 2 ≤ segs.length)
    (hne : ∀ seg ∈ segs, seg.value ≠ "") :
    parameterValueToString { type := "string", value := segs } true
      = some (specInterpolatedRender segs) := by
  rcases segs with _ | ⟨a, segs2⟩
  · exact absurd hlen (by decide)
  rcases segs2 with _ | ⟨b, t⟩
  · simp at hlen
  have hf := filter_nonempty_eq_self (a :: b :: t) hne
  simp [parameterValueToString, hf, renderNonPathValue, targetFormat, normFmt,
        renderPlainSegments, specInterpolatedRender]

theorem C1_amended_witness :
    parameterValueToString
      { type := "string",
        value := [ { type := .literal, value := "Hello, " },
                   { type := .token, value := "body('action')['name']",
                     token := some { type := some "string" } } ] } true
      = some "Hello, @\x7bbody('action')['name']\x7d" :=
  C1_amended
    [ { type := .literal, value := "Hello, " },
      { type := .token, value := "body('action')['name']",
        token := some { type := some "string" } } ]
    (by decide) (by decide)

/-- C2: a sole token of declared token type `string` requiring no cast
renders bare (`@` followed by the expression); a sole token of any other
declared type (number, integer, any, object, array) renders
interpolated. -/
theorem C2_sole_token_form (t e : String) (he : e ≠ "")
    (ht : t ∈ ["string", "number", "integer", "any", "object", "array"]) :
    parameterValueToString (soleTokenParam t e) true
      = some (if t = "string" then "@" ++ e else interpolate e) := by
  have hbe : (e != "") = true := bne_iff_ne.mpr he
  fin_cases ht <;>
    simp [parameterValueToString, soleTokenParam, List.filter_cons, hbe, renderNonPathValue,
          targetFormat, tokenSourceFormat, normFmt, castTable, renderPlainSegments,
          tokenTypeNonString, interpolate]

theorem C2_witness :
    parameterValueToString (soleTokenParam "number" "body('action')['path']") true
      = some "@\x7bbody('action')['path']\x7d" :=
  C2_sole_token_form "number" "body('action')['path']" (by decide) (by decide)

/-- C3: the sole-token casting table — a byte-format source cast to a
binary (or file) target yields bare `base64ToBinary`; a datauri source
cast to binary or file yields bare `decodeDataUri`; a binary source or a
file-typed token cast to a byte target yields interpolated `base64`; a
binary source or file-typed token cast to a datauri target yields the
interpolated `concat('data:;base64,', base64(...))` composition; matching
source and target formats apply no cast. -/
theorem C3_casting_table (e : String) (he : e ≠ "") :
    parameterValueToString (castParam "string" (some "binary") "string" (some "byte") e) true
      = some ("@base64ToBinary(" ++ e ++ ")") ∧
    parameterValueToString (castParam "file" none "string" (some "byte") e) true
      = some ("@base64ToBinary(" ++ e ++ ")") ∧
    parameterValueToString (castParam "string" (some "binary") "string" (some "datauri") e) true
      = some ("@decodeDataUri(" ++ e ++ ")") ∧
    parameterValueToString (castParam "file" none "string" (some "datauri") e) true
      = some ("@decodeDataUri(" ++ e ++ ")") ∧
    parameterValueToString (castParam "string" (some "byte") "string" (some "binary") e) true
      = some ("@\x7bbase64(" ++ e ++ ")\x7d") ∧
    parameterValueToString (castParam "string" (some "byte") "file" none e) true
      = some ("@\x7bbase64(" ++ e ++ ")\x7d") ∧
    parameterValueToString (castParam "string" (some "datauri") "string" (some "binary") e) true
      = some ("@\x7bconcat('data:;base64,',base64(" ++ e ++ "))\x7d") ∧
    parameterValueToString (castParam "string" (some "datauri") "file" none e) true
      = some ("@\x7bconcat('data:;base64,',base64(" ++ e ++ "))\x7d") ∧
    parameterValueToString (castParam "string" (some "byte") "string" (some "byte") e) true
      = some ("@" ++ e) ∧
    parameterValueToString (castParam "string" (some "binary") "string" (some "binary") e) true
      = some ("@" ++ e) ∧
    parameterValueToString (castParam "string" (some "datauri") "string" (some "datauri") e) true
      = some ("@" ++ e) := by
  have hbe : (e != "") = true := bne_iff_ne.mpr he
  refine ⟨?_, ?_, ?_, ?_, ?_, ?_, ?_, ?_, ?_, ?_, ?_⟩ <;>
    simp [parameterValueToString, castParam, List.filter_cons, hbe, renderNonPathValue,
      targetFormat, tokenSourceFormat, normFmt, castTable, renderPlainSegments,
      tokenTypeNonString, interpolate] <;>
    (try simp [← String.append_assoc]) <;> (try simp [String.append_assoc])

theorem C3_witness :
    parameterValueToString
      (castParam "string" (some "binary") "string" (some "byte") "triggerBody()") true
      = some "@base64ToBinary(triggerBody())" :=
  (C3_casting_table "triggerBody()" (by decide)).1

/-- C6: for object/array/any-typed parameters the JSON assembly path
attempts strict JSON parsing of the assembled text, returning the compact
reserialized form on success and the assembled text unchanged on parse
failure, never raising: the literal value of the spec's example is
returned verbatim, a valid JSON literal is compacted, and in general a
sole literal whose text fails JSON parsing passes through unchanged while
one that parses (with object shape) reserializes compactly. -/
theorem C6_json_fallback :
    parameterValueToString
      (objectLiteralParam "\x7b\"Invalid json\x7d") false
      = some "\x7b\"Invalid json\x7d" ∧
    parameterValueToString
      (objectLiteralParam "\x7b\"Accept-Language\": \"en-US\"\x7d") false
      = some "\x7b\"Accept-Language\":\"en-US\"\x7d" ∧
    (∀ s, parseJsonText s = none →
      parameterValueToJSONString [ { type := .literal, value := s } ] = s) ∧
    (∀ s j, jsonObjectShaped s = true → parseJsonText s = some j →
      parameterValueToJSONString [ { type := .literal, value := s } ] = printJson j) := by
  have hassemble : ∀ s : String,
      jsonAssemble false false [ { type := .literal, value := s } ] = s := by
    intro s
    simp [jsonAssemble, String.append_empty, String.empty_append]
  refine ⟨rfl, rfl, ?_, ?_⟩
  · intro s h
    by_cases hb : (jsonObjectShaped s || jsonArrayShaped s) = true
    · simp [parameterValueToJSONString, rawRenderSegments, hassemble, hb, h]
    · simp [parameterValueToJSONString, rawRenderSegments, hb]
  · intro s j hs hp
    have hb : (jsonObjectShaped s || jsonArrayShaped s) = true := by simp [hs]
    simp [parameterValueToJSONString, rawRenderSegments, hassemble, hb, hp]

theorem C6_witness :
    parameterValueToJSONString
      [ { type := .literal, value := "\x7b\"Invalid json\x7d" } ]
      = "\x7b\"Invalid json\x7d" :=
  C6_json_fallback.2.2.1 "\x7b\"Invalid json\x7d" rfl

/-- C7: a non-empty path-location parameter with encode policy `double`
renders wrapped in two nested `encodeURIComponent` calls (one for
`single`), applied after casting: a literal renders to the doubly encoded
string literal, and a byte-format token with a binary target renders to
the doubly encoded `base64ToBinary` cast. -/
theorem C7_path_encoding (s e : String) (hs : s ≠ "") (he : e ≠ "") :
    parameterValueToString (pathLiteralParam "double" s) true
      = some ("@\x7bencodeURIComponent(encodeURIComponent('" ++ s ++ "'))\x7d") ∧
    parameterValueToString (pathLiteralParam "single" s) true
      = some ("@\x7bencodeURIComponent('" ++ s ++ "')\x7d") ∧
    parameterValueToString (pathByteTokenParam e) true
      = some ("@\x7bencodeURIComponent(encodeURIComponent(base64ToBinary(" ++ e ++ ")))\x7d") := by
  have hbs : (s != "") = true := bne_iff_ne.mpr hs
  have hbe : (e != "") = true := bne_iff_ne.mpr he
  refine ⟨?_, ?_, ?_⟩ <;>
    simp [parameterValueToString, pathLiteralParam, pathByteTokenParam, List.filter_cons,
      hbs, hbe, renderPathValue, encodePathExpression, iterateWrap, wrapEncodeOnce,
      getEncodeValue, stringLiteral, joinSep, targetFormat, tokenSourceFormat, normFmt,
      castTable, interpolate] <;>
    (try simp [← String.append_assoc]) <;> (try simp [String.append_assoc])

theorem C7_witness :
    parameterValueToString (pathLiteralParam "double" "Some url value") true
      = some "@\x7bencodeURIComponent(encodeURIComponent('Some url value'))\x7d" :=
  (C7_path_encoding "Some url value" "triggerBody()" (by decide) (by decide)).1

/-- C8 fails as stated: a REQUIRED path parameter with an encode policy
and an empty segment value does not render to the empty string — it
renders to the encode-wrapped empty string literal. -/
theorem C8_counterexample :
    parameterValueToString emptyRequiredPathParam true
      = some "@\x7bencodeURIComponent(encodeURIComponent(''))\x7d" ∧
    parameterValueToString emptyRequiredPathParam true ≠ some "" :=
  ⟨rfl, by decide⟩

/-- C8 (amended): a path-location parameter with `required = false`, any
encode policy, and an empty segment value renders to the empty string
with no `encodeURIComponent` or casting wrapper. -/
theorem C8_amended (enc : Option String) (segs : List ValueSegment)
    (hempty : ∀ seg ∈ segs, seg.value = "") :
    parameterValueToString
      { type := "string", required := false,
        info := { inLocation := some "path", encode := enc, format := some "" },
        value := segs } true = some "" := by
  have hf : segs.filter (fun seg => seg.value != "") = [] := by
    rw [List.filter_eq_nil_iff]
    intro a ha
    simp [hempty a ha]
  simp [parameterValueToString, hf]

theorem C8_amended_witness :
    parameterValueToString
      { type := "string", required := false,
        info := { inLocation := some "path", encode := some "double", format := some "" },
        value := [ { type := .literal, value := "" } ] } true = some "" :=
  C8_amended (some "double") [ { type := .literal, value := "" } ] (by decide)

theorem findIdx?_none_of_all {α} (p : α → Bool) (l : List α) (h : ∀ x ∈ l, p x = false) :
    l.findIdx? p = none := by
  induction l with
  | nil => rfl
  | cons a t ih =>
    simp [List.findIdx?_cons, h a (by simp), ih (fun x hx => h x (by simp [hx]))]

theorem updateOperationOptions_absent (name : String) (sup set : Bool) (acc : List String)
    (h : ∀ x ∈ acc, equalsCI x name = false) :
    updateOperationOptions name sup set acc = if sup && set then acc ++ [name] else acc := by
  have hidx : acc.findIdx? (fun o => equalsCI o name) = none := findIdx?_none_of_all _ _ h
  cases sup <;> cases set <;> simp [updateOperationOptions, hidx]

theorem fold_updateOperationOptions (toggles : List (String × Bool × Bool)) :
    ∀ acc : List String,
    (∀ t ∈ toggles, ∀ x ∈ acc, equalsCI x t.1 = false) →
    List.Pairwise (fun a b : String × Bool × Bool => equalsCI a.1 b.1 = false) toggles →
    toggles.foldl (fun l t => updateOperationOptions t.1 t.2.1 t.2.2 l) acc
      = acc ++ (toggles.filter (fun t => t.2.1 && t.2.2)).map (fun t => t.1) := by
  induction toggles with
  | nil => intro acc _ _; simp
  | cons t ts ih =>
    intro acc hacc hpair
    obtain ⟨hhead, htail⟩ := List.pairwise_cons.mp hpair
    rw [List.foldl_cons,
      updateOperationOptions_absent t.1 t.2.1 t.2.2 acc (hacc t (by simp))]
    cases hts : (t.2.1 && t.2.2)
    · rw [if_neg (by simp [hts])]
      rw [ih acc (fun t' ht' x hx => hacc t' (by simp [ht']) x hx) htail]
      simp [List.filter_cons, hts]
    · rw [if_pos (by simp [hts])]
      rw [ih (acc ++ [t.1]) ?_ htail]
      · simp [List.filter_cons, hts]
      · intro t' ht' x hx
        rcases List.mem_append.mp hx with hx | hx
        · exact hacc t' (by simp [ht']) x hx
        · simp only [List.mem_singleton] at hx
          subst hx
          exact hhead t' ht'

/-- C9 fails as stated: when the original operation definition already
carries an operation-options string, its entries survive serialization
even though no operation option is toggled on in the settings — the field
is present with a name that is not an enabled option. -/
theorem C9_counterexample :
    getSerializedOperationOptions (some "RandomOption") ({} : Settings) = some "RandomOption" ∧
    getSerializedOperationOptions (some "RandomOption") ({} : Settings) ≠ none :=
  ⟨rfl, by decide⟩

/-- C9 (amended): when the original definition carries no
operation-options string, the serialized `operationOptions` field is the
comma-and-space-joined string of exactly the enabled (supported and
toggled-on) option names, in the fixed serialization order, and the field
is present iff at least one option is toggled on; with a pre-existing
options string the surviving original entries are additionally
retained. -/
theorem C9_amended (s : Settings) :
    getSerializedOperationOptions none s
      = (if (specEnabledOptionNames s).isEmpty then none
         else some (joinSep ", " (specEnabledOptionNames s))) := by
  have hpair : List.Pairwise (fun a b : String × Bool × Bool => equalsCI a.1 b.1 = false)
      (operationOptionToggles s) := by
    have hnames : (operationOptionToggles s).map (fun t => t.1)
        = ["SingleInstance", "Sequential", "Asynchronous", "DisableAsync",
           "DisableAutomaticDecompression", "SuppressWorkflowHeaders",
           "SuppressWorkflowHeadersOnResponse", "EnableSchemaValidation"] := rfl
    have hmap : ((operationOptionToggles s).map (fun t : String × Bool × Bool => t.1)).Pairwise
          (fun a b => equalsCI a b = false) ↔
        (operationOptionToggles s).Pairwise (fun a b => equalsCI a.1 b.1 = false) :=
      List.pairwise_map
    rw [hnames] at hmap
    exact hmap.mp (by decide)
  have h := fold_updateOperationOptions (operationOptionToggles s) []
    (by intro t ht x hx; simp at hx) hpair
  simp only [List.nil_append] at h
  simp only [getSerializedOperationOptions, specEnabledOptionNames]
  rw [h]

end LogicApps
